/-
Verification of the worker-pool task executor core
(testplan/runners/pools/base.py) against its specification.

The Python source is shallowly embedded: dictionaries become functions
`Nat → Option α` (or total functions where the code never tests
membership), Python lists become Lean lists, `list.pop()` /
`list.pop(0)` / `list.remove` / set operations become the corresponding
list operations, exceptions that the code can raise become `Except`
values, and wall-clock time is threaded as an explicit `now : Nat`
parameter.
-/
import Mathlib

namespace PoolBase

/-! ## Basic types -/

/-- Python exception kinds raised by the embedded code paths. -/
inductive PyErr where
  | indexError
  | valueError
  | typeError
  | keyError
deriving DecidableEq, Repr

/-- An exception raised inside task materialization / invocation,
identified by its message text. -/
structure Exc where
  msg : String
deriving DecidableEq, Repr

/-- Modelled from the spec: `format_trace` (from
`testplan/common/utils/exceptions.py`, which is not under `src/`)
formats the traceback together with the exception type/message into a
diagnostic string. -/
def format_trace (e : Exc) : String :=
  "Traceback (most recent call last): " ++ e.msg

/-! ## Transport (base.py lines 29-118)

The in-process transport holds two Python lists, `requests` and
`responses`.  `send`/`respond` use `list.append`; `receive`/`accept`
use `list.pop()` with no argument, which removes and returns the LAST
element and raises `IndexError` on an empty list.  At this layer the
payload of a message is irrelevant, so messages are identified by a
natural number. -/

/-- Message identity at the transport layer. -/
abbrev Msg := Nat

/-- `list.pop()`: remove and return the last element; `none` models the
`IndexError` on an empty list. -/
def pyPop (l : List Msg) : Option (Msg × List Msg) :=
  match l.getLast? with
  | none => none
  | some m => some (m, l.dropLast)

/-- State of the in-process `Transport`. -/
structure MTransport where
  requests : List Msg
  responses : List Msg
  active : Bool
deriving DecidableEq, Repr

/-- A fresh transport (`Transport.__init__`). -/
def MTransport.init : MTransport := ⟨[], [], true⟩

/-- `Transport.send`: the worker appends a message to `requests`. -/
def MTransport.send (t : MTransport) (m : Msg) : MTransport :=
  { t with requests := t.requests ++ [m] }

/-- `Transport.respond`: the pool appends a message to `responses`. -/
def MTransport.respond (t : MTransport) (m : Msg) : MTransport :=
  { t with responses := t.responses ++ [m] }

/-- One observable step of `Transport.receive`'s loop. -/
inductive ReceiveStep where
  /-- the loop returns: `none` models falling out of the `while` with
  no message (transport inactive). -/
  | finished (m : Option Msg) (t : MTransport)
  /-- `responses` was empty while active: the loop sleeps and retries. -/
  | waiting
deriving DecidableEq, Repr

/-- `Transport.receive`: while active, try `responses.pop()`; on
`IndexError` sleep and retry; once inactive, return no message. -/
def MTransport.receiveStep (t : MTransport) : ReceiveStep :=
  if t.active then
    match pyPop t.responses with
    | some (m, rest) => .finished (some m) { t with responses := rest }
    | none => .waiting
  else .finished none t

/-- `Transport.accept`: `return self.requests.pop()` — raises
`IndexError` when no request is pending. -/
def MTransport.accept (t : MTransport) : Except PyErr (Msg × MTransport) :=
  match pyPop t.requests with
  | some (m, rest) => .ok (m, { t with requests := rest })
  | none => .error .indexError

/-! ## Round-robin connection manager (base.py lines 184-210) -/

/-- State of `RoundRobinConnManager`: the registered workers are
represented by their transports; `_current` starts at 1. -/
structure RRState where
  workers : List MTransport
  current : Nat
deriving DecidableEq, Repr

/-- The list position actually polled for cursor `c` over `n` workers:
Python evaluates `workers[(c % n) - 1]`, and for `c % n = 0` the index
`-1` selects the last element, so the effective position is
`(c % n + n - 1) % n`. -/
def polledPos (n c : Nat) : Nat := (c % n + n - 1) % n

/-- One call of a worker transport's `accept()` as made by the
connection manager: a returned message, or `none` when the transport
raised `IndexError` (caught by `RoundRobinConnManager.accept`). -/
def pollTransport (t : MTransport) : Option Msg × MTransport :=
  match t.accept with
  | .ok (m, t') => (some m, t')
  | .error _ => (none, t)

/-- `RoundRobinConnManager.accept`: with no workers return `None`
(before the cursor is touched); otherwise poll the selected worker's
transport, swallow `IndexError`, and advance the cursor by one in the
`finally` block whether or not a message was present. -/
def RRState.accept (r : RRState) : Option Msg × RRState :=
  match r.workers with
  | [] => (none, r)
  | w :: ws =>
    let n := (w :: ws).length
    let pos := polledPos n r.current
    let (msg, t') := pollTransport ((w :: ws).getD pos w)
    (msg, { workers := (w :: ws).set pos t', current := r.current + 1 })

/-! ## Tasks and task results (base.py lines 320-347) -/

/-- What happens when a task is materialized and its target invoked.
`Worker.execute` has three invocation branches: a `Runnable` target
(`target.run()` after parent adoption), a plain callable (`target()`),
and any other object (`target.run()`; a target with no `run` attribute
makes that call raise, which lands in the `runObject` error case).
Results are represented by natural numbers. -/
inductive Outcome where
  /-- the invocation raised exception `e` (any `BaseException`). -/
  | raised (e : Exc)
  /-- the invocation returned value `v`. -/
  | returned (v : Nat)
deriving DecidableEq, Repr

/-- See `Outcome`. -/
inductive TaskBehavior where
  /-- `task.materialize()` itself raises. -/
  | materializeRaises (e : Exc)
  /-- target is an `entity.Runnable`: `target.run()` raises or returns. -/
  | runnable (r : Outcome)
  /-- target is a plain callable: `target()` raises or returns. -/
  | callableT (r : Outcome)
  /-- any other target: `target.run()` raises or returns. -/
  | runObject (r : Outcome)
deriving DecidableEq, Repr

/-- A `Task`: its `uid()` and its behavior under `execute`. -/
structure MTask where
  uid : Nat
  behavior : TaskBehavior
deriving DecidableEq, Repr

/-- A `TaskResult`. -/
structure MTaskResult where
  task : MTask
  result : Option Nat
  status : Bool
  reason : Option String
deriving DecidableEq, Repr

/-- The combined outcome of materializing a task and invoking its
target — everything the `try` block of `Worker.execute` covers. -/
def invokeOutcome : TaskBehavior → Outcome
  | .materializeRaises e => .raised e
  | .runnable r => r
  | .callableT r => r
  | .runObject r => r

/-- `Worker.execute`: run the task under a `try` that catches
`BaseException`; an exception yields a failing `TaskResult` carrying
the formatted trace, a normal return yields a passing one. -/
def Worker.execute (t : MTask) : MTaskResult :=
  match invokeOutcome t.behavior with
  | .raised e => ⟨t, none, false, some (format_trace e)⟩
  | .returned v => ⟨t, some v, true, none⟩

/-! ## Pool state (base.py lines 414-445) -/

/-- Entity status tags relevant to the dispatcher. -/
inductive Status where
  | INITIAL
  | STARTING
  | STARTED
  | STOPPING
  | STOPPED
  | ABORTED
deriving DecidableEq, Repr

/-- Point update of a total map. -/
def fupd {α : Type} (f : Nat → α) (k : Nat) (v : α) : Nat → α :=
  fun x => if x = k then v else f x

/-- Pool-owned dispatcher state.  `_input` is modelled as a total map
because the code never tests membership in it; `task_assign_cnt` and
`_workers_last_result` are `Option`-valued because the code branches on
key presence (`if uid not in self.task_assign_cnt`,
`if worker not in self._workers_last_result`).
`_workers_last_result` is keyed by the worker's index. -/
structure PoolState where
  active : Bool
  status : Status
  input : Nat → MTask
  ongoing : List Nat
  unassigned : List Nat
  results : Nat → Option MTaskResult
  task_assign_cnt : Nat → Option Nat
  workers_last_result : Nat → Option Nat

/-- Per-worker state the dispatcher manipulates.  Python's
`worker.assigned` set is modelled as a duplicate-free list: `set.add`
inserts when absent, `set.remove`/`set.pop` erase. -/
structure WorkerState where
  active : Bool
  assigned : List Nat
  requesting : Nat
  last_heartbeat : Option Nat

/-- `set.add`: insert if not already present. -/
def setAdd (s : List Nat) (x : Nat) : List Nat :=
  if x ∈ s then s else s ++ [x]

/-- A response message produced by the pool for a worker. -/
inductive PoolResponse where
  /-- `Ack`, optionally carrying data (the heartbeat reply carries the
  timestamp). -/
  | ack (data : Option Nat)
  | stop
  | taskSending (tasks : List MTask)
  /-- `ConfigSending`; the config-chain payload plays no role here. -/
  | configSending
deriving DecidableEq, Repr

/-! ## Dispatcher handlers (base.py lines 533-673) -/

/-- `Pool._discard_task`: write a failing `TaskResult` for `uid` and
remove it from `ongoing` (`list.remove` drops the first occurrence). -/
def discardTask (s : PoolState) (uid : Nat) : PoolState :=
  let reason := "Task discarded by pool - already reached max retries: " ++ toString uid ++ "."
  let failed : MTaskResult := ⟨s.input uid, none, false, some reason⟩
  { s with results := fupd s.results uid (some failed),
           ongoing := s.ongoing.erase uid }

/-- The `if uid not in self.task_assign_cnt: self.task_assign_cnt[uid] = 0`
step of `Pool._handle_taskpull_request`. -/
def pullInit (s : PoolState) (uid : Nat) : PoolState :=
  if (s.task_assign_cnt uid).isNone then
    { s with task_assign_cnt := fupd s.task_assign_cnt uid (some 0) }
  else s

/-- The `self.task_assign_cnt[uid] += 1` step of
`Pool._handle_taskpull_request`. -/
def bumpCnt (s : PoolState) (uid : Nat) : PoolState :=
  { s with task_assign_cnt := fupd s.task_assign_cnt uid (some ((s.task_assign_cnt uid).getD 0 + 1)) }

/-- The `for _ in range(request.data)` loop of
`Pool._handle_taskpull_request`: pop the head of `unassigned`
(breaking when empty), default the uid's assign count to 0, discard
when the count has reached `limit`, otherwise increment the count,
record the assignment on the worker and append the task
(`self._input[uid]`) to the batch. -/
def pullLoop (limit : Nat) :
    Nat → PoolState → WorkerState → List MTask →
    PoolState × WorkerState × List MTask
  | 0, s, w, batch => (s, w, batch)
  | n + 1, s, w, batch =>
    match s.unassigned with
    | [] => (s, w, batch)
    | uid :: rest =>
      if ((pullInit { s with unassigned := rest } uid).task_assign_cnt
            uid).getD 0 ≥ limit then
        pullLoop limit n
          (discardTask (pullInit { s with unassigned := rest } uid) uid)
          w batch
      else
        pullLoop limit n
          (bumpCnt (pullInit { s with unassigned := rest } uid) uid)
          { w with assigned := setAdd w.assigned uid }
          (batch ++ [s.input uid])

/-- `Pool._handle_taskpull_request`: dispatch only when STARTED; if any
tasks were batched respond `TaskSending` and set
`requesting = n - len(batch)`, otherwise respond `Ack` and set
`requesting = n`. -/
def handle_taskpull_request (limit n : Nat) (s : PoolState)
    (w : WorkerState) : PoolState × WorkerState × PoolResponse :=
  if s.status = Status.STARTED then
    if (pullLoop limit n s w []).2.2.isEmpty then
      ((pullLoop limit n s w []).1,
       { (pullLoop limit n s w []).2.1 with requesting := n }, .ack none)
    else
      ((pullLoop limit n s w []).1,
       { (pullLoop limit n s w []).2.1 with
           requesting := n - (pullLoop limit n s w []).2.2.length },
       .taskSending (pullLoop limit n s w []).2.2)
  else
    (s, { w with requesting := n }, .ack none)

/-- The `if worker not in self._workers_last_result` step of
`Pool._handle_taskresults`: record the receive time only on the first
result ever received from this worker. -/
def stampLastResult (s : PoolState) (now widx : Nat) : PoolState :=
  if (s.workers_last_result widx).isNone then
    { s with workers_last_result := fupd s.workers_last_result widx (some now) }
  else s

/-- The `self._print_test_result(task_result); self._results[uid] =
task_result; self.ongoing.remove(uid)` tail of one TaskResults
iteration: the result is written first, and then `list.remove` raises
`ValueError` when the uid is not in `ongoing` (the printer only
logs). -/
def recordResult (tr : MTaskResult) (s : PoolState) (w : WorkerState) :
    PoolState × WorkerState × Option PyErr :=
  if tr.task.uid ∈ s.ongoing then
    ({ s with results := fupd s.results tr.task.uid (some tr),
              ongoing := s.ongoing.erase tr.task.uid }, w, none)
  else
    ({ s with results := fupd s.results tr.task.uid (some tr) }, w,
     some PyErr.valueError)

/-- The body of `Pool._handle_taskresults`'s `for` loop for one
`task_result`, with its exception paths: `worker.assigned.remove(uid)`
is a Python `set.remove` and raises `KeyError` when the uid is not
assigned (before the `workers_last_result` stamp); the
`self.task_assign_cnt[uid]` read in the reschedule branch raises
`KeyError` when the uid has no count; `self.ongoing.remove(uid)` raises
`ValueError` when the uid is not ongoing (after `results[uid]` was
already written).  The third component is `none` on normal completion
and carries the exception otherwise; the first two components are the
pool/worker state at the point the iteration ended. -/
def processTaskResult (resched : PoolState → MTaskResult → Bool)
    (limit now widx : Nat) (tr : MTaskResult) (s : PoolState)
    (w : WorkerState) : PoolState × WorkerState × Option PyErr :=
  if tr.task.uid ∈ w.assigned then
    if resched (stampLastResult s now widx) tr then
      match (stampLastResult s now widx).task_assign_cnt tr.task.uid with
      | none =>
        (stampLastResult s now widx,
         { w with assigned := w.assigned.erase tr.task.uid },
         some PyErr.keyError)
      | some c =>
        if c ≥ limit then
          recordResult tr (stampLastResult s now widx)
            { w with assigned := w.assigned.erase tr.task.uid }
        else
          ({ stampLastResult s now widx with
               unassigned :=
                 (stampLastResult s now widx).unassigned ++ [tr.task.uid] },
           { w with assigned := w.assigned.erase tr.task.uid }, none)
    else
      recordResult tr (stampLastResult s now widx)
        { w with assigned := w.assigned.erase tr.task.uid }
  else (s, w, some PyErr.keyError)

/-- `Pool._handle_taskresults`: process each result in order; when an
iteration raises, the exception propagates out of the handler (to be
logged by `_loop_process_work`) with the mutations made so far kept,
and no `Ack` is sent; when all entries complete, respond `Ack`. -/
def handle_taskresults (resched : PoolState → MTaskResult → Bool)
    (limit now widx : Nat) :
    List MTaskResult → PoolState → WorkerState →
    PoolState × WorkerState × Except PyErr PoolResponse
  | [], s, w => (s, w, .ok (.ack none))
  | tr :: rest, s, w =>
    match (processTaskResult resched limit now widx tr s w).2.2 with
    | some e =>
      ((processTaskResult resched limit now widx tr s w).1,
       (processTaskResult resched limit now widx tr s w).2.1, .error e)
    | none =>
      handle_taskresults resched limit now widx rest
        (processTaskResult resched limit now widx tr s w).1
        (processTaskResult resched limit now widx tr s w).2.1

/-- `default_check_reschedule`: the predicate installed by
`Pool.__init__`; always `False`. -/
def default_check_reschedule (_pool : PoolState)
    (_task_result : MTaskResult) : Bool :=
  false

/-- `Pool._deco_worker`: drain the worker's `assigned` set back into
`unassigned` (Python drains a set in unspecified order; the embedding
drains in list order) and abort the worker, which deactivates it. -/
def decoWorker (s : PoolState) (w : WorkerState) : PoolState × WorkerState :=
  ({ s with unassigned := s.unassigned ++ w.assigned },
   { w with assigned := [], active := false })

/-- A worker request, as routed by `Pool._request_handlers`. -/
inductive WorkerRequest where
  | configRequest
  | taskPullRequest (n : Nat)
  | taskResults (rs : List MTaskResult)
  | heartbeat (t : Nat)
  | setupFailed (diag : String)

/-- `Pool.handle_request` (base.py lines 533-564) together with its
per-command handlers: ignore (with `Ack`) messages from inactive
workers; stamp `worker.last_heartbeat`; answer `Stop` when the pool is
inactive or STOPPING; otherwise route to the command's handler.
`_handle_cfg_request` only sends the config chain and leaves the
dispatcher state untouched; `_handle_heartbeat` re-stamps
`last_heartbeat` and acks with the timestamp; `_handle_setupfailed`
acks and then decommissions the worker.  The response component is
`.error e` when a handler raised (the exception is logged by
`_loop_process_work` and no response is sent). -/
def handle_request (resched : PoolState → MTaskResult → Bool)
    (limit now widx : Nat) (req : WorkerRequest) (s : PoolState)
    (w : WorkerState) : PoolState × WorkerState × Except PyErr PoolResponse :=
  if ¬ w.active then (s, w, .ok (.ack none))
  else
    let w0 : WorkerState := { w with last_heartbeat := some now }
    if ¬ s.active ∨ s.status = Status.STOPPING then (s, w0, .ok .stop)
    else
      match req with
      | .configRequest => (s, w0, .ok .configSending)
      | .taskPullRequest n =>
        ((handle_taskpull_request limit n s w0).1,
         (handle_taskpull_request limit n s w0).2.1,
         .ok (handle_taskpull_request limit n s w0).2.2)
      | .taskResults rs => handle_taskresults resched limit now widx rs s w0
      | .heartbeat _ =>
        (s, { w0 with last_heartbeat := some now }, .ok (.ack (some now)))
      | .setupFailed _ =>
        ((decoWorker s w0).1, (decoWorker s w0).2, .ok (.ack none))

/-! ## Task submission (base.py lines 451-464) -/

/-- The argument passed to `Pool.add`: either an actual `Task` or some
other object (described only by a string), on which the
`isinstance(task, Task)` check fails. -/
inductive AddArg where
  | task (t : MTask)
  | notATask (descr : String)
deriving DecidableEq, Repr

/-- Modelled from the spec: `Executor.add` (from
`testplan/runners/base.py`, which is not under `src/`) stores the task
in `input[uid]` and appends uid to `ongoing`. -/
def Executor.add (t : MTask) (uid : Nat) (s : PoolState) : PoolState :=
  { s with input := fupd s.input uid t, ongoing := s.ongoing ++ [uid] }

/-- `Pool.add`: raise `ValueError` unless the argument is a `Task`
(before any state is touched); otherwise run the parent `Executor.add`
and append uid to `unassigned`. -/
def Pool.add (arg : AddArg) (uid : Nat) (s : PoolState) :
    Except PyErr PoolState :=
  match arg with
  | .notATask _ => .error .valueError
  | .task t =>
    let s1 := Executor.add t uid s
    .ok { s1 with unassigned := s1.unassigned ++ [uid] }

/-! ## Sample states used to instantiate theorems on concrete inputs -/

/-- A task whose target is a plain callable returning `v`. -/
def sampleTask (u v : Nat) : MTask := ⟨u, .callableT (.returned v)⟩

/-- A successful `TaskResult` for the task with uid `u`. -/
def sampleResult (u : Nat) : MTaskResult :=
  ⟨sampleTask u 42, some 42, true, none⟩

/-- A freshly started pool with no submitted work. -/
def samplePool : PoolState where
  active := true
  status := .STARTED
  input := fun u => sampleTask u 42
  ongoing := []
  unassigned := []
  results := fun _ => none
  task_assign_cnt := fun _ => none
  workers_last_result := fun _ => none

/-- A started pool in which task 5 has been assigned once and task 0
submitted but not yet assigned. -/
def samplePoolAssigned : PoolState :=
  { samplePool with
      unassigned := [0],
      ongoing := [0, 5],
      task_assign_cnt := fupd samplePool.task_assign_cnt 5 (some 1) }

/-- A started pool in which tasks 5 and 6 are in flight. -/
def samplePoolTwo : PoolState :=
  { samplePool with
      ongoing := [5, 6],
      task_assign_cnt :=
        fupd (fupd samplePool.task_assign_cnt 5 (some 1)) 6 (some 1) }

/-- A fresh worker. -/
def sampleWorker : WorkerState where
  active := true
  assigned := []
  requesting := 0
  last_heartbeat := none

/-- A worker with task 5 in flight. -/
def sampleWorkerFive : WorkerState :=
  { sampleWorker with assigned := [5] }

/-- A worker with task 6 in flight. -/
def sampleWorkerSix : WorkerState :=
  { sampleWorker with assigned := [6] }

/-! ## Helper lemmas -/

theorem fupd_same {α : Type} (f : Nat → α) (k : Nat) (v : α) :
    fupd f k v k = v := by
  simp [fupd]

theorem fupd_other {α : Type} (f : Nat → α) (k x : Nat) (v : α)
    (h : x ≠ k) : fupd f k v x = f x := by
  simp [fupd, h]

/-- Popping after a respond yields the just-responded message and
restores the previous response buffer. -/
theorem pyPop_append (l : List Msg) (m : Msg) :
    pyPop (l ++ [m]) = some (m, l) := by
  simp [pyPop]

/-- `receive` after a `respond` delivers the message just responded
(the last element of the buffer) on an active transport. -/
theorem receiveStep_respond (t : MTransport) (h : t.active = true)
    (m : Msg) : (t.respond m).receiveStep = .finished (some m) t := by
  obtain ⟨req, res, act⟩ := t
  cases h
  simp [MTransport.receiveStep, MTransport.respond, pyPop_append]

/-! ## C3 -/

/-- C3: `Worker.execute` never propagates an exception: every
materialization/invocation outcome yields a `TaskResult`; an exception
(any `BaseException`) yields `status = false` with the formatted trace
as reason, and a normal return yields `status = true` carrying the
result. -/
theorem execute_never_propagates (t : MTask) :
    (∀ e, invokeOutcome t.behavior = .raised e →
      Worker.execute t = ⟨t, none, false, some (format_trace e)⟩) ∧
    (∀ v, invokeOutcome t.behavior = .returned v →
      Worker.execute t = ⟨t, some v, true, none⟩) := by
  constructor <;> intro x h <;> simp [Worker.execute, h]

/-- C3 witness: concrete instances of both branches of
`execute_never_propagates`. -/
theorem execute_never_propagates_witness :
    (invokeOutcome (MTask.mk 7 (.callableT (.raised ⟨"boom"⟩))).behavior =
        .raised ⟨"boom"⟩ ∧
      Worker.execute ⟨7, .callableT (.raised ⟨"boom"⟩)⟩ =
        ⟨⟨7, .callableT (.raised ⟨"boom"⟩)⟩, none, false,
          some (format_trace ⟨"boom"⟩)⟩) ∧
    (invokeOutcome (sampleTask 3 42).behavior = .returned 42 ∧
      Worker.execute (sampleTask 3 42) =
        ⟨sampleTask 3 42, some 42, true, none⟩) :=
  ⟨⟨rfl, (execute_never_propagates _).1 _ rfl⟩,
   ⟨rfl, (execute_never_propagates _).2 _ rfl⟩⟩

/-! ## C2 -/

/-- C2 counterexample: the in-process transport delivers responses in
LIFO order, not FIFO.  After the pool responds with message 1 and then
message 2, the worker's first `receive` returns message 2, not
message 1. -/
theorem responses_fifo_counterexample :
    ((MTransport.init.respond 1).respond 2).receiveStep =
      .finished (some 2) (MTransport.init.respond 1) ∧
    (2 : Msg) ≠ 1 := by
  constructor
  · rfl
  · decide

/-- C2 amended: responses are delivered to `receive()` in the reverse
of the order the pool called `respond()` (`responses.pop()` takes the
last element): if the pool responds m1 and then m2 before the worker
receives either, the worker receives m2 first and m1 second. -/
theorem responses_delivered_lifo (t : MTransport) (h : t.active = true)
    (m1 m2 : Msg) :
    ((t.respond m1).respond m2).receiveStep =
      .finished (some m2) (t.respond m1) ∧
    (t.respond m1).receiveStep = .finished (some m1) t := by
  refine ⟨receiveStep_respond _ ?_ _, receiveStep_respond _ h _⟩
  simpa [MTransport.respond] using h

/-- C2 witness: `responses_delivered_lifo` on a fresh transport. -/
theorem responses_delivered_lifo_witness :
    MTransport.init.active = true ∧
    (((MTransport.init.respond 1).respond 2).receiveStep =
        .finished (some 2) (MTransport.init.respond 1) ∧
      (MTransport.init.respond 1).receiveStep =
        .finished (some 1) MTransport.init) :=
  ⟨rfl, responses_delivered_lifo MTransport.init rfl 1 2⟩

/-! ## C8 -/

/-- C8 counterexample: `Transport.accept` is not total: on a transport
with no pending request it raises `IndexError` instead of returning
`None`. -/
theorem accept_raises_counterexample :
    MTransport.init.accept = .error PyErr.indexError := by
  rfl

/-- C8 amended: `Transport.accept` returns the most recently sent
pending request when one exists and raises `IndexError` when none is
pending; the return-`None`-instead-of-raising contract is realized one
layer up, by the connection manager's poll (`RoundRobinConnManager.accept`),
which catches the `IndexError`. -/
theorem accept_behaviour (t : MTransport) :
    match t.requests.getLast? with
    | none =>
        t.accept = .error PyErr.indexError ∧ pollTransport t = (none, t)
    | some m =>
        t.accept = .ok (m, { t with requests := t.requests.dropLast }) ∧
        pollTransport t =
          (some m, { t with requests := t.requests.dropLast }) := by
  rcases h : t.requests.getLast? with _ | m <;>
    simp [MTransport.accept, pollTransport, pyPop, h]

/-! ## C6 -/

/-- The polled position is a rotation: `(c % n + n - 1) % n` equals
`(c + (n - 1)) % n` for `n > 0`. -/
theorem polledPos_shift (n c : Nat) (hn : 0 < n) :
    polledPos n c = (c + (n - 1)) % n := by
  unfold polledPos
  have h1 : c % n + n - 1 = c % n + (n - 1) := by omega
  rw [h1, Nat.add_mod c (n - 1) n, Nat.mod_eq_of_lt (show n - 1 < n by omega)]

/-- Over `n` consecutive cursor values, each position in `0..n-1` is
polled exactly once. -/
theorem polledPos_fair (n c j : Nat) (hn : 0 < n) (hj : j < n) :
    ∃! i, i < n ∧ polledPos n (c + i) = j := by
  have key : ∀ i, polledPos n (c + i) = ((c + (n - 1)) % n + i) % n := by
    intro i
    rw [polledPos_shift _ _ hn, Nat.mod_add_mod]
    congr 1
    omega
  have hrlt : (c + (n - 1)) % n < n := Nat.mod_lt _ hn
  refine ⟨(j + n - (c + (n - 1)) % n) % n, ⟨Nat.mod_lt _ hn, ?_⟩, ?_⟩
  · rw [key, Nat.add_mod_mod]
    have harith : (c + (n - 1)) % n + (j + n - (c + (n - 1)) % n) = j + n := by
      omega
    rw [harith, Nat.add_mod_right, Nat.mod_eq_of_lt hj]
  · rintro i ⟨hi, hpi⟩
    rw [key] at hpi
    have h0 : ((c + (n - 1)) % n + i) % n =
        ((c + (n - 1)) % n + (j + n - (c + (n - 1)) % n) % n) % n := by
      rw [hpi, Nat.add_mod_mod]
      have harith : (c + (n - 1)) % n + (j + n - (c + (n - 1)) % n) = j + n := by
        omega
      rw [harith, Nat.add_mod_right, Nat.mod_eq_of_lt hj]
    have hmod : i % n = (j + n - (c + (n - 1)) % n) % n % n :=
      Nat.ModEq.add_left_cancel' ((c + (n - 1)) % n) h0
    rw [Nat.mod_eq_of_lt hi, Nat.mod_mod_of_dvd _ dvd_rfl] at hmod
    exact hmod

/-- C6: `RoundRobinConnManager.accept` with no registered workers
returns `None`; with `n > 0` workers it polls the transport of the
worker at list position `workers[(cursor mod n) - 1]` (Python indexing:
position `(cursor mod n + n - 1) mod n`) and advances the cursor by
exactly one whether or not a message was present, so over any `n`
consecutive calls each worker position is polled exactly once. -/
theorem roundrobin_accept (ws : List MTransport) (c j : Nat)
    (w0 : MTransport) (hws : ws ≠ []) (hj : j < ws.length) :
    (RRState.accept ⟨[], c⟩ = (none, ⟨[], c⟩)) ∧
    ((RRState.accept ⟨ws, c⟩).2.current = c + 1) ∧
    ((RRState.accept ⟨ws, c⟩).2.workers.length = ws.length) ∧
    ((RRState.accept ⟨ws, c⟩).1 =
      (pollTransport (ws.getD (polledPos ws.length c) w0)).1) ∧
    ((RRState.accept ⟨ws, c⟩).2.workers =
      ws.set (polledPos ws.length c)
        (pollTransport (ws.getD (polledPos ws.length c) w0)).2) ∧
    (∃! i, i < ws.length ∧ polledPos ws.length (c + i) = j) := by
  cases ws with
  | nil => exact absurd rfl hws
  | cons w rest =>
    have hlen : 0 < (w :: rest).length := by simp
    have hpos : polledPos (w :: rest).length c < (w :: rest).length :=
      Nat.mod_lt _ hlen
    have hgetD : (w :: rest).getD (polledPos (w :: rest).length c) w0 =
        (w :: rest).getD (polledPos (w :: rest).length c) w := by
      rw [List.getD_eq_getElem _ _ hpos, List.getD_eq_getElem _ _ hpos]
    refine ⟨rfl, rfl, ?_, ?_, ?_, polledPos_fair _ c j hlen hj⟩
    · simp [RRState.accept]
    · rw [hgetD]
      rfl
    · rw [hgetD]
      rfl

/-- C6 witness: `roundrobin_accept` on two concrete workers. -/
theorem roundrobin_accept_witness :
    (([MTransport.init, MTransport.init] : List MTransport) ≠ []) ∧
    (1 < ([MTransport.init, MTransport.init] : List MTransport).length) ∧
    (∃! i, i < ([MTransport.init, MTransport.init] : List MTransport).length ∧
      polledPos ([MTransport.init, MTransport.init] : List MTransport).length
        (5 + i) = 1) :=
  ⟨by simp, by simp,
   (roundrobin_accept [MTransport.init, MTransport.init] 5 1
      MTransport.init (by simp) (by simp)).2.2.2.2.2⟩

/-! ## C7 -/

/-- C7 counterexample: `Pool.add` rejects a non-Task argument with
`ValueError`, not `TypeError`. -/
theorem add_typeerror_counterexample :
    Pool.add (.notATask "int object") 0 samplePool =
      .error PyErr.valueError ∧
    PyErr.valueError ≠ PyErr.typeError :=
  ⟨rfl, by decide⟩

/-- C7 amended: for a non-Task argument `Pool.add` fails with a
`ValueError` raised before any state is touched (so `input`, `ongoing`
and `unassigned` are unchanged — the embedding returns no state on
error); for a `Task` it stores the task in `input[uid]` and appends uid
to both `ongoing` and `unassigned`. -/
theorem add_behaviour (arg : AddArg) (uid : Nat) (s : PoolState) :
    (∀ d, arg = .notATask d →
      Pool.add arg uid s = .error PyErr.valueError) ∧
    (∀ t, arg = .task t → Pool.add arg uid s =
      .ok { s with input := fupd s.input uid t,
                   ongoing := s.ongoing ++ [uid],
                   unassigned := s.unassigned ++ [uid] }) := by
  constructor <;> rintro x rfl <;> rfl

/-- C7 witness: both branches of `add_behaviour` on concrete
arguments. -/
theorem add_behaviour_witness :
    (Pool.add (.notATask "int object") 1 samplePool =
      .error PyErr.valueError) ∧
    (Pool.add (.task (sampleTask 1 42)) 1 samplePool =
      .ok { samplePool with
              input := fupd samplePool.input 1 (sampleTask 1 42),
              ongoing := samplePool.ongoing ++ [1],
              unassigned := samplePool.unassigned ++ [1] }) :=
  ⟨(add_behaviour _ 1 samplePool).1 _ rfl,
   (add_behaviour _ 1 samplePool).2 _ rfl⟩

/-! ## Lemmas about the TaskResults handler -/

/-- `stampLastResult` leaves the receive time alone once set and
records `now` otherwise. -/
theorem stampLastResult_at (s : PoolState) (now widx : Nat) :
    (stampLastResult s now widx).workers_last_result widx =
      some ((s.workers_last_result widx).getD now) := by
  unfold stampLastResult
  rcases h : s.workers_last_result widx with _ | t0 <;> simp [h, fupd_same]

/-- `stampLastResult` changes nothing but `workers_last_result`. -/
theorem stampLastResult_fields (s : PoolState) (now widx : Nat) :
    (stampLastResult s now widx).task_assign_cnt = s.task_assign_cnt ∧
    (stampLastResult s now widx).unassigned = s.unassigned ∧
    (stampLastResult s now widx).results = s.results ∧
    (stampLastResult s now widx).ongoing = s.ongoing := by
  unfold stampLastResult
  split <;> simp

/-- `recordResult` only writes `results`/`ongoing`: the other pool
fields and the worker are untouched. -/
theorem recordResult_inv (tr : MTaskResult) (s : PoolState)
    (w : WorkerState) :
    (recordResult tr s w).1.unassigned = s.unassigned ∧
    (recordResult tr s w).1.task_assign_cnt = s.task_assign_cnt ∧
    (recordResult tr s w).1.workers_last_result = s.workers_last_result ∧
    (recordResult tr s w).2.1 = w := by
  unfold recordResult
  split <;> exact ⟨rfl, rfl, rfl, rfl⟩

/-- When the uid is ongoing, `recordResult` completes: the result is
written and the uid erased from `ongoing`. -/
theorem recordResult_mem (tr : MTaskResult) (s : PoolState)
    (w : WorkerState) (h : tr.task.uid ∈ s.ongoing) :
    recordResult tr s w =
      ({ s with results := fupd s.results tr.task.uid (some tr),
                ongoing := s.ongoing.erase tr.task.uid }, w, none) := by
  unfold recordResult
  rw [if_pos h]

/-- Processing one task result never touches `task_assign_cnt`, on
normal and on raising iterations alike. -/
theorem processTaskResult_cnt (resched : PoolState → MTaskResult → Bool)
    (limit now widx : Nat) (tr : MTaskResult) (s : PoolState)
    (w : WorkerState) :
    (processTaskResult resched limit now widx tr s w).1.task_assign_cnt =
      s.task_assign_cnt := by
  have hst := (stampLastResult_fields s now widx).1
  unfold processTaskResult
  split
  · split
    · split
      · exact hst
      · split
        · exact ((recordResult_inv _ _ _).2.1).trans hst
        · exact hst
    · exact ((recordResult_inv _ _ _).2.1).trans hst
  · rfl

/-- Once `workers_last_result[widx]` is set, one iteration keeps it, on
normal and on raising iterations alike. -/
theorem processTaskResult_wlr_pres
    (resched : PoolState → MTaskResult → Bool) (limit now widx : Nat)
    (tr : MTaskResult) (s : PoolState) (w : WorkerState) (t0 : Nat)
    (h : s.workers_last_result widx = some t0) :
    (processTaskResult resched limit now widx tr s
        w).1.workers_last_result widx = some t0 := by
  have hstamp : (stampLastResult s now widx).workers_last_result widx =
      some t0 := by
    rw [stampLastResult_at, h]
    rfl
  unfold processTaskResult
  split
  · split
    · split
      · exact hstamp
      · split
        · rw [(recordResult_inv _ _ _).2.2.1]
          exact hstamp
        · exact hstamp
    · rw [(recordResult_inv _ _ _).2.2.1]
      exact hstamp
  · exact h

/-- As soon as an iteration gets past the de-assign step (the uid is
assigned to the worker), `workers_last_result[widx]` is stamped on
first arrival — whether or not the iteration later raises. -/
theorem processTaskResult_wlr_assigned
    (resched : PoolState → MTaskResult → Bool) (limit now widx : Nat)
    (tr : MTaskResult) (s : PoolState) (w : WorkerState)
    (ha : tr.task.uid ∈ w.assigned) :
    (processTaskResult resched limit now widx tr s
        w).1.workers_last_result widx =
      some ((s.workers_last_result widx).getD now) := by
  unfold processTaskResult
  rw [if_pos ha]
  split
  · split
    · exact stampLastResult_at s now widx
    · split
      · rw [(recordResult_inv _ _ _).2.2.1]
        exact stampLastResult_at s now widx
      · exact stampLastResult_at s now widx
  · rw [(recordResult_inv _ _ _).2.2.1]
    exact stampLastResult_at s now widx

/-- Full characterization of one iteration on an in-flight entry (uid
assigned to the worker, counted, and ongoing): it completes without
raising, and either reschedules or records depending on the predicate
and the count. -/
theorem processTaskResult_inflight
    (resched : PoolState → MTaskResult → Bool) (limit now widx : Nat)
    (tr : MTaskResult) (s : PoolState) (w : WorkerState) (c : Nat)
    (hc : s.task_assign_cnt tr.task.uid = some c)
    (ha : tr.task.uid ∈ w.assigned) (ho : tr.task.uid ∈ s.ongoing) :
    processTaskResult resched limit now widx tr s w =
      (if resched (stampLastResult s now widx) tr = true ∧ c < limit then
        ({ stampLastResult s now widx with
             unassigned :=
               (stampLastResult s now widx).unassigned ++ [tr.task.uid] },
         { w with assigned := w.assigned.erase tr.task.uid }, none)
       else
        ({ stampLastResult s now widx with
             results := fupd (stampLastResult s now widx).results
               tr.task.uid (some tr),
             ongoing :=
               (stampLastResult s now widx).ongoing.erase tr.task.uid },
         { w with assigned := w.assigned.erase tr.task.uid }, none)) := by
  have hstc : (stampLastResult s now widx).task_assign_cnt tr.task.uid =
      some c := by
    rw [(stampLastResult_fields s now widx).1]
    exact hc
  have hsto : tr.task.uid ∈ (stampLastResult s now widx).ongoing := by
    rw [(stampLastResult_fields s now widx).2.2.2]
    exact ho
  unfold processTaskResult
  rw [if_pos ha]
  by_cases hr : resched (stampLastResult s now widx) tr = true
  · rw [if_pos hr, hstc]
    by_cases hlt : c < limit
    · rw [if_pos ⟨hr, hlt⟩]
      dsimp only
      rw [if_neg (by omega)]
    · rw [if_neg (fun hand => hlt hand.2)]
      dsimp only
      rw [if_pos (by omega), recordResult_mem tr _ _ hsto]
  · rw [if_neg hr, if_neg (fun hand => hr hand.1),
      recordResult_mem tr _ _ hsto]

/-- With the default predicate, one iteration on an entry whose uid is
assigned and ongoing completes and records terminally. -/
theorem processTaskResult_default_success (limit now widx : Nat)
    (tr : MTaskResult) (s : PoolState) (w : WorkerState)
    (ha : tr.task.uid ∈ w.assigned) (ho : tr.task.uid ∈ s.ongoing) :
    processTaskResult default_check_reschedule limit now widx tr s w =
      ({ stampLastResult s now widx with
           results := fupd (stampLastResult s now widx).results
             tr.task.uid (some tr),
           ongoing :=
             (stampLastResult s now widx).ongoing.erase tr.task.uid },
       { w with assigned := w.assigned.erase tr.task.uid }, none) := by
  have hsto : tr.task.uid ∈ (stampLastResult s now widx).ongoing := by
    rw [(stampLastResult_fields s now widx).2.2.2]
    exact ho
  unfold processTaskResult
  rw [if_pos ha, if_neg (by simp [default_check_reschedule]),
    recordResult_mem tr _ _ hsto]

/-- With the default predicate, no iteration ever touches `unassigned`
— including the raising ones. -/
theorem processTaskResult_default_unassigned (limit now widx : Nat)
    (tr : MTaskResult) (s : PoolState) (w : WorkerState) :
    (processTaskResult default_check_reschedule limit now widx tr s
        w).1.unassigned = s.unassigned := by
  unfold processTaskResult
  split
  · rw [if_neg (by simp [default_check_reschedule]),
      (recordResult_inv _ _ _).1, (stampLastResult_fields s now widx).2.1]
  · rfl

/-- The TaskResults handler either completes all entries and answers
`Ack`, or an entry raises and the exception propagates with no
response. -/
theorem handle_taskresults_ack_or_error
    (resched : PoolState → MTaskResult → Bool) (limit now widx : Nat)
    (rs : List MTaskResult) (s : PoolState) (w : WorkerState) :
    (handle_taskresults resched limit now widx rs s w).2.2 =
        .ok (.ack none) ∨
      ∃ e, (handle_taskresults resched limit now widx rs s w).2.2 =
        .error e := by
  induction rs generalizing s w with
  | nil => exact Or.inl rfl
  | cons tr rest ih =>
    simp only [handle_taskresults]
    split
    · exact Or.inr ⟨_, rfl⟩
    · exact ih _ _

/-- Once `workers_last_result[widx]` is set it survives the whole
TaskResults loop, raising or not. -/
theorem handle_taskresults_wlr_some
    (resched : PoolState → MTaskResult → Bool) (limit now widx : Nat)
    (rs : List MTaskResult) (s : PoolState) (w : WorkerState) (t0 : Nat)
    (h : s.workers_last_result widx = some t0) :
    (handle_taskresults resched limit now widx rs s w).1.workers_last_result
      widx = some t0 := by
  induction rs generalizing s w with
  | nil => exact h
  | cons tr rest ih =>
    simp only [handle_taskresults]
    split
    · exact processTaskResult_wlr_pres resched limit now widx tr s w t0 h
    · exact ih _ _ (processTaskResult_wlr_pres resched limit now widx tr s w t0 h)

/-- With the default predicate the TaskResults handler never touches
`unassigned`, on every trace. -/
theorem handle_taskresults_default_unassigned (limit now widx : Nat)
    (rs : List MTaskResult) :
    ∀ (s : PoolState) (w : WorkerState),
      (handle_taskresults default_check_reschedule limit now widx rs s
        w).1.unassigned = s.unassigned := by
  induction rs with
  | nil => intro s w; rfl
  | cons tr rest ih =>
    intro s w
    simp only [handle_taskresults]
    split
    · exact processTaskResult_default_unassigned limit now widx tr s w
    · exact (ih _ _).trans
        (processTaskResult_default_unassigned limit now widx tr s w)

/-- With the default predicate, a TaskResults message whose entries are
genuinely in flight (pairwise distinct uids, each assigned to this
worker and in `ongoing`) is fully processed: the handler answers `Ack`,
erases each uid from `ongoing` in order, keeps written results written,
and writes a result for every entry. -/
theorem handle_taskresults_default_success (limit now widx : Nat)
    (rs : List MTaskResult) :
    ∀ (s : PoolState) (w : WorkerState),
      rs.Pairwise (fun a b => a.task.uid ≠ b.task.uid) →
      (∀ tr ∈ rs, tr.task.uid ∈ w.assigned) →
      (∀ tr ∈ rs, tr.task.uid ∈ s.ongoing) →
      (handle_taskresults default_check_reschedule limit now widx rs s
          w).2.2 = .ok (.ack none) ∧
      (handle_taskresults default_check_reschedule limit now widx rs s
          w).1.ongoing =
        rs.foldl (fun og tr => og.erase tr.task.uid) s.ongoing ∧
      (∀ u, (s.results u).isSome →
        ((handle_taskresults default_check_reschedule limit now widx rs s
            w).1.results u).isSome) ∧
      (∀ tr ∈ rs,
        ((handle_taskresults default_check_reschedule limit now widx rs s
            w).1.results tr.task.uid).isSome) := by
  induction rs with
  | nil =>
    intro s w _ _ _
    exact ⟨rfl, rfl, fun u hu => hu, by simp⟩
  | cons tr rest ih =>
    intro s w hp ha ho
    obtain ⟨hne, hp'⟩ := List.pairwise_cons.mp hp
    obtain ⟨hf1, hf2, hf3, hf4⟩ := stampLastResult_fields s now widx
    have hps := processTaskResult_default_success limit now widx tr s w
      (ha tr (by simp)) (ho tr (by simp))
    have herr : (processTaskResult default_check_reschedule limit now widx
        tr s w).2.2 = none := by
      rw [hps]
    have hResults : (processTaskResult default_check_reschedule limit now
        widx tr s w).1.results = fupd s.results tr.task.uid (some tr) := by
      rw [hps]
      dsimp only
      rw [hf3]
    have hOngoing : (processTaskResult default_check_reschedule limit now
        widx tr s w).1.ongoing = s.ongoing.erase tr.task.uid := by
      rw [hps]
      dsimp only
      rw [hf4]
    have hAssigned : (processTaskResult default_check_reschedule limit now
        widx tr s w).2.1.assigned = w.assigned.erase tr.task.uid := by
      rw [hps]
    obtain ⟨k1, k2, k3, k4⟩ :=
      ih (processTaskResult default_check_reschedule limit now widx tr s w).1
        (processTaskResult default_check_reschedule limit now widx tr s w).2.1
        hp'
        (by
          intro tr' htr'
          rw [hAssigned]
          exact (List.mem_erase_of_ne (hne tr' htr').symm).mpr
            (ha tr' (by simp [htr'])))
        (by
          intro tr' htr'
          rw [hOngoing]
          exact (List.mem_erase_of_ne (hne tr' htr').symm).mpr
            (ho tr' (by simp [htr'])))
    simp only [handle_taskresults, herr]
    refine ⟨k1, ?_, ?_, ?_⟩
    · rw [k2, hOngoing]
      simp [List.foldl_cons]
    · intro u hu
      refine k3 u ?_
      rw [hResults]
      by_cases hcase : u = tr.task.uid <;> simp [fupd, hcase, hu]
    · intro tr' htr'
      rcases List.mem_cons.mp htr' with heq | hmem
      · subst heq
        refine k3 _ ?_
        rw [hResults, fupd_same]
        rfl
      · exact k4 _ hmem

/-- The batch grows by at most one task per loop iteration. -/
theorem pullLoop_batch_length (limit : Nat) :
    ∀ (n : Nat) (s : PoolState) (w : WorkerState) (b : List MTask),
      (pullLoop limit n s w b).2.2.length ≤ b.length + n := by
  intro n
  induction n with
  | zero =>
    intro s w b
    simp [pullLoop]
  | succ n ih =>
    intro s w b
    rw [pullLoop]
    rcases hu : s.unassigned with _ | ⟨uid, rest⟩
    · simp
    · dsimp only
      split
      · exact le_trans (ih _ _ _) (by omega)
      · refine le_trans (ih _ _ _) ?_
        simp
        omega

/-! ## C4 -/

/-- C4: the TaskPullRequest handler dispatches only when the pool is
STARTED: a `TaskSending(batch)` response implies the status was STARTED,
`1 ≤ len(batch) ≤ n`, and `worker.requesting = n - len(batch)`; in
every other case (no tasks batched, or status not STARTED) the handler
answers `Ack` and sets `worker.requesting = n` — when the status is not
STARTED it changes nothing at all. -/
theorem taskpull_response (limit n : Nat) (s : PoolState)
    (w : WorkerState) :
    (s.status ≠ Status.STARTED →
      handle_taskpull_request limit n s w =
        (s, { w with requesting := n }, .ack none)) ∧
    (∀ batch,
      (handle_taskpull_request limit n s w).2.2 = .taskSending batch →
      s.status = Status.STARTED ∧ 1 ≤ batch.length ∧ batch.length ≤ n ∧
      (handle_taskpull_request limit n s w).2.1.requesting =
        n - batch.length) ∧
    ((handle_taskpull_request limit n s w).2.2 = .ack none →
      (handle_taskpull_request limit n s w).2.1.requesting = n) := by
  unfold handle_taskpull_request
  by_cases hst : s.status = Status.STARTED
  · rw [if_pos hst]
    by_cases hbe : (pullLoop limit n s w []).2.2.isEmpty
    · rw [if_pos hbe]
      refine ⟨fun habs => absurd hst habs, ?_, fun _ => rfl⟩
      intro batch hresp
      exact absurd hresp (by simp)
    · rw [if_neg hbe]
      refine ⟨fun habs => absurd hst habs, ?_, fun hresp => absurd hresp (by simp)⟩
      intro batch hresp
      have hb : (pullLoop limit n s w []).2.2 = batch :=
        PoolResponse.taskSending.inj hresp
      have hlen : batch.length ≤ n := by
        have := pullLoop_batch_length limit n s w []
        rw [hb] at this
        simpa using this
      have hpos : 1 ≤ batch.length := by
        rw [← hb]
        rcases hnil : (pullLoop limit n s w []).2.2 with _ | _
        · rw [hnil] at hbe
          simp at hbe
        · simp
      exact ⟨hst, hpos, hlen, by rw [hb]⟩
  · rw [if_neg hst]
    refine ⟨fun _ => rfl, ?_, fun _ => rfl⟩
    intro batch hresp
    exact absurd hresp (by simp)

/-- C4 witness: `taskpull_response` on a concrete started pool with one
unassigned task, discharging the `TaskSending` hypothesis. -/
theorem taskpull_response_witness :
    (handle_taskpull_request 3 2 samplePoolAssigned
        sampleWorker).2.2 = .taskSending [sampleTask 0 42] ∧
    (samplePoolAssigned.status = Status.STARTED ∧
      1 ≤ ([sampleTask 0 42] : List MTask).length ∧
      ([sampleTask 0 42] : List MTask).length ≤ 2 ∧
      (handle_taskpull_request 3 2 samplePoolAssigned
        sampleWorker).2.1.requesting = 2 - ([sampleTask 0 42] : List MTask).length) :=
  ⟨by decide,
   (taskpull_response 3 2 samplePoolAssigned sampleWorker).2.1
     [sampleTask 0 42] (by decide)⟩

/-! ## C1 -/

/-- The retry-cap invariant: every assign count is at most `limit`
(absent entries count as 0). -/
def cntBound (limit : Nat) (s : PoolState) : Prop :=
  ∀ uid, (s.task_assign_cnt uid).getD 0 ≤ limit

/-- Initializing an absent assign count to 0 preserves the cap. -/
theorem pullInit_cntBound (limit : Nat) (s : PoolState) (uid : Nat)
    (h : cntBound limit s) : cntBound limit (pullInit s uid) := by
  intro x
  unfold pullInit
  split
  · by_cases hx : x = uid
    · simp [fupd, hx]
    · simpa [fupd, hx] using h x
  · exact h x

/-- Incrementing a strictly-below-limit assign count preserves the
cap. -/
theorem bumpCnt_cntBound (limit : Nat) (s : PoolState) (uid : Nat)
    (h : cntBound limit s)
    (hlt : (s.task_assign_cnt uid).getD 0 < limit) :
    cntBound limit (bumpCnt s uid) := by
  intro x
  unfold bumpCnt
  by_cases hx : x = uid
  · simp only [hx, fupd_same]
    simpa using hlt
  · simpa [fupd, hx] using h x

/-- The pull loop preserves the retry cap: counts are incremented only
when strictly below the limit, and discarding touches no count. -/
theorem pullLoop_cntBound (limit : Nat) :
    ∀ (n : Nat) (s : PoolState) (w : WorkerState) (b : List MTask),
      cntBound limit s → cntBound limit (pullLoop limit n s w b).1 := by
  intro n
  induction n with
  | zero => intro s w b h; exact h
  | succ n ih =>
    intro s w b h
    rw [pullLoop]
    rcases hu : s.unassigned with _ | ⟨uid, rest⟩
    · exact h
    · dsimp only
      have hrest : cntBound limit { s with unassigned := rest } := h
      split
      · exact ih _ _ _ (pullInit_cntBound limit _ uid hrest)
      · refine ih _ _ _ ?_
        refine bumpCnt_cntBound limit _ uid
          (pullInit_cntBound limit _ uid hrest) ?_
        omega

/-- The TaskResults handler never changes any assign count. -/
theorem handle_taskresults_cnt
    (resched : PoolState → MTaskResult → Bool) (limit now widx : Nat)
    (rs : List MTaskResult) (s : PoolState) (w : WorkerState) :
    (handle_taskresults resched limit now widx rs s w).1.task_assign_cnt =
      s.task_assign_cnt := by
  induction rs generalizing s w with
  | nil => rfl
  | cons tr rest ih =>
    simp only [handle_taskresults]
    split
    · exact processTaskResult_cnt resched limit now widx tr s w
    · exact (ih _ _).trans
        (processTaskResult_cnt resched limit now widx tr s w)

/-- The TaskPullRequest handler preserves the retry cap. -/
theorem handle_taskpull_cntBound (limit n : Nat) (s : PoolState)
    (w : WorkerState) (h : cntBound limit s) :
    cntBound limit (handle_taskpull_request limit n s w).1 := by
  unfold handle_taskpull_request
  split
  · split
    · exact pullLoop_cntBound limit n s w [] h
    · exact pullLoop_cntBound limit n s w [] h
  · exact h

/-- C1: every dispatcher step preserves the retry-cap invariant
`task_assign_cnt[uid] ≤ task_retries_limit`: the pull handler
increments a count only when it is strictly below the limit (discarding
the task otherwise) and no other handler writes a count, so the bound
holds after every dispatcher step whenever it held before (it holds
initially, the map starting empty). -/
theorem task_assign_cnt_bounded
    (resched : PoolState → MTaskResult → Bool) (limit now widx : Nat)
    (req : WorkerRequest) (s : PoolState) (w : WorkerState)
    (h : cntBound limit s) :
    cntBound limit (handle_request resched limit now widx req s w).1 := by
  cases req with
  | configRequest =>
    unfold handle_request
    split
    · exact h
    · split
      · exact h
      · exact h
  | taskPullRequest n =>
    unfold handle_request
    split
    · exact h
    · split
      · exact h
      · exact handle_taskpull_cntBound limit n s _ h
  | taskResults rs =>
    unfold handle_request
    split
    · exact h
    · split
      · exact h
      · intro x
        dsimp only
        rw [handle_taskresults_cnt]
        exact h x
  | heartbeat t =>
    unfold handle_request
    split
    · exact h
    · split
      · exact h
      · exact h
  | setupFailed d =>
    unfold handle_request
    split
    · exact h
    · split
      · exact h
      · exact h

/-- C1 witness: `task_assign_cnt_bounded` on a concrete pull step that
assigns a task, discharging the invariant hypothesis. -/
theorem task_assign_cnt_bounded_witness :
    cntBound 3 samplePoolAssigned ∧
    cntBound 3 (handle_request default_check_reschedule 3 1 0
      (.taskPullRequest 1) samplePoolAssigned sampleWorker).1 := by
  have hinit : cntBound 3 samplePoolAssigned := by
    intro u
    by_cases hu : u = 5 <;>
      simp [samplePoolAssigned, samplePool, fupd, hu]
  exact ⟨hinit, task_assign_cnt_bounded default_check_reschedule 3 1 0
    (.taskPullRequest 1) samplePoolAssigned sampleWorker hinit⟩

/-! ## C5 -/

/-- C5: for each TaskResult processed by the TaskResults handler — its
uid being genuinely in flight: assigned to this worker, counted, and in
`ongoing` (as holds whenever the reporting worker was really given the
task) — the iteration completes without raising and removes the uid
from `worker.assigned`; the uid is re-appended to `unassigned` with no
terminal result written if and only if the reschedule predicate (of the
pool state the handler sees, i.e. after the `workers_last_result`
stamp) holds and `task_assign_cnt[uid] < limit`; in every other case
`results[uid]` is written and the uid removed from `ongoing`; and the
handler responds `Ack` exactly when all entries are processed — if an
iteration raises, the exception propagates and no response is sent. -/
theorem taskresults_entry (resched : PoolState → MTaskResult → Bool)
    (limit now widx : Nat) (tr : MTaskResult) (rs : List MTaskResult)
    (s : PoolState) (w : WorkerState) (c : Nat)
    (hc : s.task_assign_cnt tr.task.uid = some c)
    (ha : tr.task.uid ∈ w.assigned) (ho : tr.task.uid ∈ s.ongoing) :
    ((processTaskResult resched limit now widx tr s w).2.2 = none) ∧
    ((processTaskResult resched limit now widx tr s w).2.1.assigned =
      w.assigned.erase tr.task.uid) ∧
    (if resched (stampLastResult s now widx) tr = true ∧ c < limit then
      (processTaskResult resched limit now widx tr s w).1.unassigned =
          s.unassigned ++ [tr.task.uid] ∧
        (processTaskResult resched limit now widx tr s w).1.results =
          s.results ∧
        (processTaskResult resched limit now widx tr s w).1.ongoing =
          s.ongoing
     else
      (processTaskResult resched limit now widx tr s w).1.results
          tr.task.uid = some tr ∧
        (processTaskResult resched limit now widx tr s w).1.ongoing =
          s.ongoing.erase tr.task.uid ∧
        (processTaskResult resched limit now widx tr s w).1.unassigned =
          s.unassigned) ∧
    ((handle_taskresults resched limit now widx rs s w).2.2 =
        .ok (.ack none) ∨
      ∃ e, (handle_taskresults resched limit now widx rs s w).2.2 =
        .error e) := by
  obtain ⟨hf1, hf2, hf3, hf4⟩ := stampLastResult_fields s now widx
  have hchar := processTaskResult_inflight resched limit now widx tr s w c
    hc ha ho
  refine ⟨?_, ?_, ?_,
    handle_taskresults_ack_or_error resched limit now widx rs s w⟩
  · rw [hchar]
    split <;> rfl
  · rw [hchar]
    split <;> rfl
  · by_cases hif : resched (stampLastResult s now widx) tr = true ∧ c < limit
    · rw [if_pos hif, hchar, if_pos hif]
      exact ⟨by rw [hf2], hf3, hf4⟩
    · rw [if_neg hif, hchar, if_neg hif]
      refine ⟨?_, by rw [hf4], hf2⟩
      exact fupd_same _ _ _

/-- C5 witness: `taskresults_entry` on a concrete in-flight result,
discharging the count-presence and membership hypotheses. -/
theorem taskresults_entry_witness :
    samplePoolAssigned.task_assign_cnt (sampleResult 5).task.uid =
      some 1 ∧
    (sampleResult 5).task.uid ∈ sampleWorkerFive.assigned ∧
    (sampleResult 5).task.uid ∈ samplePoolAssigned.ongoing ∧
    (processTaskResult default_check_reschedule 3 1 0 (sampleResult 5)
      samplePoolAssigned sampleWorkerFive).2.2 = none :=
  ⟨rfl, by decide, by decide,
   (taskresults_entry default_check_reschedule 3 1 0 (sampleResult 5) []
      samplePoolAssigned sampleWorkerFive 1 rfl (by decide)
      (by decide)).1⟩

/-! ## C9 -/

/-- C9 counterexample: a worker delivers task 5's result at time 1 and
task 6's result at time 2, both fully processed (each handler call
answers `Ack`); `workers_last_result[0]` still holds time 1, not the
time (2) at which the most recent result was received. -/
theorem workers_last_result_counterexample :
    (handle_taskresults default_check_reschedule 3 1 0 [sampleResult 5]
        samplePoolTwo sampleWorkerFive).2.2 = .ok (.ack none) ∧
    (handle_taskresults default_check_reschedule 3 2 0 [sampleResult 6]
        (handle_taskresults default_check_reschedule 3 1 0 [sampleResult 5]
          samplePoolTwo sampleWorkerFive).1
        sampleWorkerSix).2.2 = .ok (.ack none) ∧
    (handle_taskresults default_check_reschedule 3 2 0 [sampleResult 6]
        (handle_taskresults default_check_reschedule 3 1 0 [sampleResult 5]
          samplePoolTwo sampleWorkerFive).1
        sampleWorkerSix).1.workers_last_result 0 = some 1 ∧
    (1 : Nat) ≠ 2 := by
  refine ⟨rfl, rfl, rfl, by decide⟩

/-- C9 amended: after any sequence of TaskResults messages from a
worker, `workers_last_result[widx]` equals the time at which the FIRST
result was received from that worker: it is stamped as soon as a first
entry passes the de-assign step (its uid was assigned to the worker)
and never updated afterwards. -/
theorem workers_last_result_first_arrival
    (resched : PoolState → MTaskResult → Bool) (limit now widx : Nat)
    (rs : List MTaskResult) (s : PoolState) (w : WorkerState) :
    (∀ tr rest, rs = tr :: rest → tr.task.uid ∈ w.assigned →
      s.workers_last_result widx = none →
      (handle_taskresults resched limit now widx rs s
        w).1.workers_last_result widx = some now) ∧
    (∀ t0, s.workers_last_result widx = some t0 →
      (handle_taskresults resched limit now widx rs s
        w).1.workers_last_result widx = some t0) := by
  constructor
  · rintro tr rest rfl ha h
    have hs : (processTaskResult resched limit now widx tr s
        w).1.workers_last_result widx = some now := by
      rw [processTaskResult_wlr_assigned resched limit now widx tr s w ha,
        h]
      rfl
    simp only [handle_taskresults]
    split
    · exact hs
    · exact handle_taskresults_wlr_some resched limit now widx rest _ _
        now hs
  · intro t0 h
    exact handle_taskresults_wlr_some resched limit now widx rs s w t0 h

/-- C9 witness: both branches of `workers_last_result_first_arrival`
on concrete states. -/
theorem workers_last_result_first_arrival_witness :
    (samplePoolTwo.workers_last_result 0 = none ∧
      (sampleResult 5).task.uid ∈ sampleWorkerFive.assigned ∧
      (handle_taskresults default_check_reschedule 3 1 0 [sampleResult 5]
        samplePoolTwo sampleWorkerFive).1.workers_last_result 0 =
        some 1) ∧
    ((stampLastResult samplePoolTwo 1 0).workers_last_result 0 = some 1 ∧
      (handle_taskresults default_check_reschedule 3 2 0 [sampleResult 6]
        (stampLastResult samplePoolTwo 1 0)
        sampleWorkerSix).1.workers_last_result 0 = some 1) :=
  ⟨⟨rfl, by decide,
    (workers_last_result_first_arrival default_check_reschedule 3 1 0
      [sampleResult 5] samplePoolTwo sampleWorkerFive).1
      (sampleResult 5) [] rfl (by decide) rfl⟩,
   ⟨rfl,
    (workers_last_result_first_arrival default_check_reschedule 3 2 0
      [sampleResult 6] (stampLastResult samplePoolTwo 1 0)
      sampleWorkerSix).2 1 rfl⟩⟩

/-! ## C10 -/

/-- C10: `default_check_reschedule` returns `False` for every
(pool, task_result) pair; consequently, with the default predicate the
TaskResults handler never re-appends any uid to `unassigned` (on every
trace, raising or not), and a message whose entries are genuinely in
flight (pairwise distinct uids, each assigned to this worker and in
`ongoing`) is recorded terminally in full: `results[uid]` is written
and the uid erased from `ongoing` for every entry, and the handler
answers `Ack`. -/
theorem default_reschedule_terminal (limit now widx : Nat)
    (rs : List MTaskResult) (s : PoolState) (w : WorkerState)
    (hp : rs.Pairwise (fun a b => a.task.uid ≠ b.task.uid))
    (ha : ∀ tr ∈ rs, tr.task.uid ∈ w.assigned)
    (ho : ∀ tr ∈ rs, tr.task.uid ∈ s.ongoing) :
    (∀ p r, default_check_reschedule p r = false) ∧
    (∀ (rs' : List MTaskResult) (s' : PoolState) (w' : WorkerState),
      (handle_taskresults default_check_reschedule limit now widx rs' s'
        w').1.unassigned = s'.unassigned) ∧
    (handle_taskresults default_check_reschedule limit now widx rs s
        w).2.2 = .ok (.ack none) ∧
    (handle_taskresults default_check_reschedule limit now widx rs s
        w).1.ongoing =
      rs.foldl (fun og tr => og.erase tr.task.uid) s.ongoing ∧
    (∀ tr ∈ rs,
      ((handle_taskresults default_check_reschedule limit now widx rs s
          w).1.results tr.task.uid).isSome) := by
  obtain ⟨k1, k2, _, k4⟩ :=
    handle_taskresults_default_success limit now widx rs s w hp ha ho
  exact ⟨fun _ _ => rfl,
    fun rs' s' w' =>
      handle_taskresults_default_unassigned limit now widx rs' s' w',
    k1, k2, k4⟩

/-- C10 witness: `default_reschedule_terminal` on a concrete in-flight
result list, discharging the distinctness and membership hypotheses. -/
theorem default_reschedule_terminal_witness :
    ([sampleResult 5] : List MTaskResult).Pairwise
      (fun a b => a.task.uid ≠ b.task.uid) ∧
    (∀ tr ∈ ([sampleResult 5] : List MTaskResult),
      tr.task.uid ∈ sampleWorkerFive.assigned) ∧
    (∀ tr ∈ ([sampleResult 5] : List MTaskResult),
      tr.task.uid ∈ samplePoolAssigned.ongoing) ∧
    (handle_taskresults default_check_reschedule 3 1 0 [sampleResult 5]
      samplePoolAssigned sampleWorkerFive).2.2 = .ok (.ack none) :=
  ⟨by simp, by decide, by decide,
   (default_reschedule_terminal 3 1 0 [sampleResult 5]
      samplePoolAssigned sampleWorkerFive (by simp) (by decide)
      (by decide)).2.2.1⟩

end PoolBase
